import Mathlib

/-!
Verification of the two scripts of the caeriscv repository:
`convert_to_little.py` (big-endian to little-endian word converter) and
`read_binary.py` (little-endian word dumper).  Bytes are modelled as
natural numbers (well-formed bytes are `< 256`), files as `List Nat`.
-/

/-- `struct.unpack` with format `>I` on bytes `[b0,b1,b2,b3]`: big-endian unsigned 32-bit decode. -/
def beDecode (b0 b1 b2 b3 : Nat) : Nat :=
  ((b0 * 256 + b1) * 256 + b2) * 256 + b3

/-- `struct.unpack` with format `<I` on bytes `[b0,b1,b2,b3]`: little-endian unsigned 32-bit decode. -/
def leDecode (b0 b1 b2 b3 : Nat) : Nat :=
  ((b3 * 256 + b2) * 256 + b1) * 256 + b0

/-- `struct.pack` with format `<I` on value `v`: little-endian encoding of a 32-bit value as 4 bytes. -/
def lePack (v : Nat) : List Nat :=
  [v % 256, v / 256 % 256, v / 65536 % 256, v / 16777216 % 256]

/-- Outcome of the read/convert/write loop of the converter: either the stream was
exhausted cleanly (`ok`), or `struct.unpack` raised `struct.error`
on a short chunk (`malformed`); in both cases we record the bytes written to
the output file so far. -/
inductive ConvResult where
  | ok (out : List Nat)
  | malformed (out : List Nat)
  deriving DecidableEq, Repr

/-- Prepend bytes already written to the output file before the rest of the
loop ran. -/
def consOut (pre : List Nat) : ConvResult → ConvResult
  | ConvResult.ok out => ConvResult.ok (pre ++ out)
  | ConvResult.malformed out => ConvResult.malformed (pre ++ out)

/-- The `while data:` loop of `convert_to_little.py`: read 4 bytes, unpack
big-endian, pack little-endian, write; a trailing chunk of 1-3 bytes makes
`struct.unpack` raise before anything more is written. -/
def convertLoop : List Nat → ConvResult
  | [] => ConvResult.ok []
  | b0 :: b1 :: b2 :: b3 :: rest =>
      consOut (lePack (beDecode b0 b1 b2 b3)) (convertLoop rest)
  | _ :: _ => ConvResult.malformed []

/-- The single usage line `convert_to_little.py` prints when the argument
count is wrong. -/
def converterUsageLine (prog : String) : String :=
  "Usage: " ++ prog ++ " <in_file> <out_file>"

/-- Observable result of one run of `convert_to_little.py`: process exit
code, lines printed to stdout, and the content of the output file
(`none` when the script exits before opening any file). -/
structure ConvRun where
  exitCode : Nat
  stdout : List String
  outputFile : Option (List Nat)
  deriving DecidableEq, Repr

/-- `convert_to_little.py` as a function of its argument vector and the input
bytes of the input file: `len(sys.argv) != 3` prints usage and exits 1 before opening
any file; otherwise the loop runs, an uncaught `struct.error` terminates the
process with exit code 1 (the exit code Python uses for an unhandled exception), and the
`finally` block closes both files on either path. -/
def converterRun (argv : List String) (input : List Nat) : ConvRun :=
  if argv.length ≠ 3 then
    { exitCode := 1, stdout := [converterUsageLine (argv.getD 0 "")], outputFile := none }
  else
    match convertLoop input with
    | ConvResult.ok out => { exitCode := 0, stdout := [], outputFile := some out }
    | ConvResult.malformed out => { exitCode := 1, stdout := [], outputFile := some out }

/-- Byte-reversal of each complete 4-byte group, dropping a trailing partial
group: the byte-level effect of unpack-big / pack-little on each word. -/
def rev4groups : List Nat → List Nat
  | b0 :: b1 :: b2 :: b3 :: rest => b3 :: b2 :: b1 :: b0 :: rev4groups rest
  | _ => []

/-- The little-endian decodings of the complete 4-byte words of a byte list. -/
def leWords : List Nat → List Nat
  | b0 :: b1 :: b2 :: b3 :: rest => leDecode b0 b1 b2 b3 :: leWords rest
  | _ => []

/-- The big-endian decodings of the complete 4-byte words of a byte list. -/
def beWords : List Nat → List Nat
  | b0 :: b1 :: b2 :: b3 :: rest => beDecode b0 b1 b2 b3 :: beWords rest
  | _ => []

lemma lePack_beDecode (b0 b1 b2 b3 : Nat)
    (h0 : b0 < 256) (h1 : b1 < 256) (h2 : b2 < 256) (h3 : b3 < 256) :
    lePack (beDecode b0 b1 b2 b3) = [b3, b2, b1, b0] := by
  simp only [lePack, beDecode, List.cons.injEq, and_true]
  refine ⟨?_, ?_, ?_, ?_⟩ <;> omega

lemma convertLoop_spec : ∀ bs : List Nat, (∀ b ∈ bs, b < 256) →
    convertLoop bs =
      if bs.length % 4 = 0 then ConvResult.ok (rev4groups bs)
      else ConvResult.malformed (rev4groups bs) := by
  intro bs h
  induction bs using convertLoop.induct with
  | case1 => simp [convertLoop, rev4groups]
  | case2 b0 b1 b2 b3 rest ih =>
      have h0 : b0 < 256 := h b0 (by simp)
      have h1 : b1 < 256 := h b1 (by simp)
      have h2 : b2 < 256 := h b2 (by simp)
      have h3 : b3 < 256 := h b3 (by simp)
      have hrest : ∀ b ∈ rest, b < 256 := fun b hb => h b (by simp [hb])
      have ihr := ih hrest
      have hlen : (rest.length + 1 + 1 + 1 + 1) % 4 = rest.length % 4 := by omega
      by_cases hm : rest.length % 4 = 0
      · simp [convertLoop, ihr, hm, hlen, rev4groups, consOut,
          lePack_beDecode b0 b1 b2 b3 h0 h1 h2 h3]
      · simp [convertLoop, ihr, hm, hlen, rev4groups, consOut,
          lePack_beDecode b0 b1 b2 b3 h0 h1 h2 h3]
  | case3 b tail hne =>
      rcases tail with _ | ⟨b1, _ | ⟨b2, _ | ⟨b3, t⟩⟩⟩
      · simp [convertLoop, rev4groups]
      · simp [convertLoop, rev4groups]
      · simp [convertLoop, rev4groups]
      · exact absurd rfl (hne b1 b2 b3 t)

lemma rev4groups_length : ∀ bs : List Nat,
    (rev4groups bs).length = 4 * (bs.length / 4) := by
  intro bs
  induction bs using rev4groups.induct with
  | case1 b0 b1 b2 b3 rest ih =>
      simp only [rev4groups, List.length_cons, ih]
      omega
  | case2 t hne =>
      rcases t with _ | ⟨a, _ | ⟨b, _ | ⟨c, _ | ⟨d, t4⟩⟩⟩⟩
      · simp [rev4groups]
      · simp [rev4groups]
      · simp [rev4groups]
      · simp [rev4groups]
      · exact absurd rfl (hne a b c d t4)

lemma rev4groups_mem : ∀ bs : List Nat, ∀ b ∈ rev4groups bs, b ∈ bs := by
  intro bs
  induction bs using rev4groups.induct with
  | case1 b0 b1 b2 b3 rest ih =>
      intro b hb
      simp only [rev4groups, List.mem_cons] at hb ⊢
      rcases hb with h | h | h | h | h
      · tauto
      · tauto
      · tauto
      · tauto
      · have := ih b h
        tauto
  | case2 t hne =>
      rcases t with _ | ⟨a, _ | ⟨b, _ | ⟨c, _ | ⟨d, t4⟩⟩⟩⟩
      · simp [rev4groups]
      · simp [rev4groups]
      · simp [rev4groups]
      · simp [rev4groups]
      · exact absurd rfl (hne a b c d t4)

lemma rev4groups_invol : ∀ bs : List Nat, bs.length % 4 = 0 →
    rev4groups (rev4groups bs) = bs := by
  intro bs
  induction bs using rev4groups.induct with
  | case1 b0 b1 b2 b3 rest ih =>
      intro h
      have hr : rest.length % 4 = 0 := by
        simp only [List.length_cons] at h
        omega
      simp [rev4groups, ih hr]
  | case2 t hne =>
      rcases t with _ | ⟨a, _ | ⟨b, _ | ⟨c, _ | ⟨d, t4⟩⟩⟩⟩
      · intro h
        simp [rev4groups]
      · intro h
        simp at h
      · intro h
        simp at h
      · intro h
        simp at h
      · exact absurd rfl (hne a b c d t4)

lemma leWords_rev4groups : ∀ bs : List Nat, leWords (rev4groups bs) = beWords bs := by
  intro bs
  induction bs using rev4groups.induct with
  | case1 b0 b1 b2 b3 rest ih =>
      simp [rev4groups, leWords, beWords, leDecode, beDecode, ih]
  | case2 t hne =>
      rcases t with _ | ⟨a, _ | ⟨b, _ | ⟨c, _ | ⟨d, t4⟩⟩⟩⟩
      · simp [rev4groups, leWords, beWords]
      · simp [rev4groups, leWords, beWords]
      · simp [rev4groups, leWords, beWords]
      · simp [rev4groups, leWords, beWords]
      · exact absurd rfl (hne a b c d t4)

/-- The loop body of `read_binary.py`: `n` remaining iterations over the
remaining bytes; each iteration reads 4 bytes, unpacks little-endian and
prints; a short read makes `unpack` raise `struct.error`, which the
`except struct.error: break` clause turns into an early loop exit. -/
def dumpLoop : Nat → List Nat → List Nat
  | 0, _ => []
  | n + 1, b0 :: b1 :: b2 :: b3 :: rest => leDecode b0 b1 b2 b3 :: dumpLoop n rest
  | _ + 1, _ => []

/-- The three lines `read_binary.py` prints on wrong usage: the usage line,
an empty line, and the note on the default separator. -/
def dumperUsageLines (prog : String) : List String :=
  ["Usage: " ++ prog ++ " <filename> [seperator]", "", "\tDefault seperator is newline"]

/-- Each `print(line)` call appends the line and a newline to stdout. -/
def joinLines (ls : List String) : String :=
  String.join (ls.map (fun l => l ++ "\n"))

/-- `ending`: `args[2]` when given, else the newline default. -/
def dumperSep (argv : List String) : String :=
  argv.getD 2 "\n"

/-- Stdout produced by the print loop: each decoded value in decimal,
immediately followed by the separator (`print(result, end=ending)`). -/
def dumperOutput (ws : List Nat) (sep : String) : String :=
  String.join (ws.map (fun w => toString w ++ sep))

/-- Observable result of one run of `read_binary.py`: exit code and stdout. -/
structure DumpRun where
  exitCode : Nat
  stdout : String
  deriving DecidableEq, Repr

/-- `read_binary.py` as a function of its argument vector, the byte size
reported by `os.fstat` and the bytes actually readable from the file (the
two can differ when the file changes between the stat and the reads):
fewer than 2 arguments prints the usage lines and exits 1 before opening
any file; otherwise the loop runs `statSize // 4` times and the process
exits 0. -/
def dumperRun (argv : List String) (statSize : Nat) (input : List Nat) : DumpRun :=
  if argv.length < 2 then
    { exitCode := 1, stdout := joinLines (dumperUsageLines (argv.getD 0 "")) }
  else
    { exitCode := 0, stdout := dumperOutput (dumpLoop (statSize / 4) input) (dumperSep argv) }

/-- File-handle events of a run: `fopen h` / `fclose h` for handle `h`
(0 = input file, 1 = output file). -/
inductive FileEv where
  | fopen : Nat → FileEv
  | fclose : Nat → FileEv
  deriving DecidableEq, Repr

/-- Handle events of `convert_to_little.py`: nothing before the argv check;
then both `open` calls, and the `finally` block closes both handles whether
the loop finished or `struct.unpack` raised. -/
def converterEvents (argv : List String) : List FileEv :=
  if argv.length ≠ 3 then []
  else [FileEv.fopen 0, FileEv.fopen 1, FileEv.fclose 0, FileEv.fclose 1]

/-- Handle events of `read_binary.py`: nothing before the argv check; then
the single `open` call — the script contains no `close`, `with` block or
`try/finally` for it. -/
def dumperEvents (argv : List String) : List FileEv :=
  if argv.length < 2 then [] else [FileEv.fopen 0]

/-- Every opened handle is closed somewhere in the event list. -/
def allClosed (evs : List FileEv) : Bool :=
  evs.all (fun e =>
    match e with
    | FileEv.fopen h => evs.contains (FileEv.fclose h)
    | FileEv.fclose _ => true)

lemma dumpLoop_eq_leWords : ∀ (n : Nat) (bs : List Nat),
    dumpLoop n bs = leWords (List.take (4 * n) bs) := by
  intro n
  induction n with
  | zero =>
      intro bs
      simp [dumpLoop, leWords]
  | succ n ih =>
      intro bs
      rcases bs with _ | ⟨b0, _ | ⟨b1, _ | ⟨b2, _ | ⟨b3, rest⟩⟩⟩⟩
      · simp [dumpLoop, leWords]
      · simp [dumpLoop, leWords, List.take_of_length_le]
      · simp [dumpLoop, leWords, List.take_of_length_le]
      · simp [dumpLoop, leWords, List.take_of_length_le]
      · have h4 : 4 * (n + 1) = 4 * n + 1 + 1 + 1 + 1 := by ring
        rw [h4]
        simp [List.take_succ_cons, dumpLoop, leWords, ih]

lemma leWords_take_mul : ∀ bs : List Nat,
    leWords (List.take (4 * (bs.length / 4)) bs) = leWords bs := by
  intro bs
  induction bs using leWords.induct with
  | case1 b0 b1 b2 b3 rest ih =>
      have h4 : 4 * ((b0 :: b1 :: b2 :: b3 :: rest).length / 4) =
          4 * (rest.length / 4) + 1 + 1 + 1 + 1 := by
        simp only [List.length_cons]
        omega
      rw [h4]
      simp [List.take_succ_cons, leWords, ih]
  | case2 t hne =>
      rcases t with _ | ⟨a, _ | ⟨b, _ | ⟨c, _ | ⟨d, t4⟩⟩⟩⟩
      · simp [leWords]
      · simp [leWords]
      · simp [leWords]
      · simp [leWords]
      · exact absurd rfl (hne a b c d t4)

lemma leWords_length : ∀ bs : List Nat, (leWords bs).length = bs.length / 4 := by
  intro bs
  induction bs using leWords.induct with
  | case1 b0 b1 b2 b3 rest ih =>
      simp only [leWords, List.length_cons, ih]
      omega
  | case2 t hne =>
      rcases t with _ | ⟨a, _ | ⟨b, _ | ⟨c, _ | ⟨d, t4⟩⟩⟩⟩
      · simp [leWords]
      · simp [leWords]
      · simp [leWords]
      · simp [leWords]
      · exact absurd rfl (hne a b c d t4)

lemma leWords_lt : ∀ bs : List Nat, (∀ b ∈ bs, b < 256) →
    ∀ v ∈ leWords bs, v < 4294967296 := by
  intro bs
  induction bs using leWords.induct with
  | case1 b0 b1 b2 b3 rest ih =>
      intro h v hv
      simp only [leWords, List.mem_cons] at hv
      rcases hv with rfl | hv
      · have h0 : b0 < 256 := h b0 (by simp)
        have h1 : b1 < 256 := h b1 (by simp)
        have h2 : b2 < 256 := h b2 (by simp)
        have h3 : b3 < 256 := h b3 (by simp)
        simp only [leDecode]
        omega
      · exact ih (fun b hb => h b (by simp [hb])) v hv
  | case2 t hne =>
      rcases t with _ | ⟨a, _ | ⟨b, _ | ⟨c, _ | ⟨d, t4⟩⟩⟩⟩
      · simp [leWords]
      · simp [leWords]
      · simp [leWords]
      · simp [leWords]
      · exact absurd rfl (hne a b c d t4)

/-- Claim C1: for every input whose byte length is a multiple of 4, the
Converter succeeds and produces an output file of exactly the same byte
length whose words, decoded little-endian, equal the input words decoded
big-endian. -/
theorem claim_C1_converter_contract (argv : List String) (bs : List Nat)
    (hargv : argv.length = 3) (h256 : ∀ b ∈ bs, b < 256) (hlen : bs.length % 4 = 0) :
    ∃ out, converterRun argv bs = { exitCode := 0, stdout := [], outputFile := some out } ∧
      out.length = bs.length ∧ leWords out = beWords bs := by
  refine ⟨rev4groups bs, ?_, ?_, leWords_rev4groups bs⟩
  · have hc := convertLoop_spec bs h256
    rw [if_pos hlen] at hc
    simp [converterRun, hargv, hc]
  · rw [rev4groups_length]
    omega

/-- Witness for C1 at a concrete 4-byte input. -/
theorem claim_C1_witness :
    ∃ out, converterRun ["convert", "in.bin", "out.bin"] [0, 0, 0, 1] =
        { exitCode := 0, stdout := [], outputFile := some out } ∧
      out.length = ([0, 0, 0, 1] : List Nat).length ∧
      leWords out = beWords [0, 0, 0, 1] :=
  claim_C1_converter_contract ["convert", "in.bin", "out.bin"] [0, 0, 0, 1]
    (by decide) (by decide) (by decide)

/-- Claim C2: the Dumper prints exactly length / 4 decoded values whatever
the remainder; on a 6-byte file it prints exactly the little-endian decoding
of the first 4 bytes and exits 0. -/
theorem claim_C2_word_count (bs : List Nat) :
    (dumpLoop (bs.length / 4) bs).length = bs.length / 4 ∧
    (bs.length = 6 →
      dumpLoop (bs.length / 4) bs =
        [leDecode (bs.getD 0 0) (bs.getD 1 0) (bs.getD 2 0) (bs.getD 3 0)] ∧
      (dumperRun ["dump", "file.bin"] bs.length bs).exitCode = 0) := by
  constructor
  · rw [dumpLoop_eq_leWords, leWords_length, List.length_take]
    omega
  · intro h6
    rcases bs with _ | ⟨b0, _ | ⟨b1, _ | ⟨b2, _ | ⟨b3, _ | ⟨b4, _ | ⟨b5, t⟩⟩⟩⟩⟩⟩
    · simp at h6
    · simp at h6
    · simp at h6
    · simp at h6
    · simp at h6
    · simp at h6
    · rcases t with _ | ⟨x, t2⟩
      · constructor
        · simp [dumpLoop, leWords, List.getD]
        · simp [dumperRun]
      · simp at h6

/-- Witness for C2 at the concrete 6-byte file 01 00 00 00 02 00. -/
theorem claim_C2_witness :
    (dumpLoop (([1, 0, 0, 0, 2, 0] : List Nat).length / 4) [1, 0, 0, 0, 2, 0]).length =
      ([1, 0, 0, 0, 2, 0] : List Nat).length / 4 ∧
    (dumpLoop (([1, 0, 0, 0, 2, 0] : List Nat).length / 4) [1, 0, 0, 0, 2, 0] =
        [leDecode (([1, 0, 0, 0, 2, 0] : List Nat).getD 0 0)
          (([1, 0, 0, 0, 2, 0] : List Nat).getD 1 0)
          (([1, 0, 0, 0, 2, 0] : List Nat).getD 2 0)
          (([1, 0, 0, 0, 2, 0] : List Nat).getD 3 0)] ∧
      (dumperRun ["dump", "file.bin"] ([1, 0, 0, 0, 2, 0] : List Nat).length
          [1, 0, 0, 0, 2, 0]).exitCode = 0) :=
  ⟨(claim_C2_word_count [1, 0, 0, 0, 2, 0]).1,
    (claim_C2_word_count [1, 0, 0, 0, 2, 0]).2 (by decide)⟩

/-- Claim C3: for input of length a multiple of 4, running the conversion
loop on its own output reproduces the original bytes exactly. -/
theorem claim_C3_round_trip (bs : List Nat)
    (h256 : ∀ b ∈ bs, b < 256) (hlen : bs.length % 4 = 0) :
    ∃ mid, convertLoop bs = ConvResult.ok mid ∧ convertLoop mid = ConvResult.ok bs := by
  refine ⟨rev4groups bs, ?_, ?_⟩
  · have hc := convertLoop_spec bs h256
    rw [if_pos hlen] at hc
    exact hc
  · have h256m : ∀ b ∈ rev4groups bs, b < 256 :=
      fun b hb => h256 b (rev4groups_mem bs b hb)
    have hm : (rev4groups bs).length % 4 = 0 := by
      rw [rev4groups_length]
      omega
    have hc := convertLoop_spec (rev4groups bs) h256m
    rw [if_pos hm, rev4groups_invol bs hlen] at hc
    exact hc

/-- Witness for C3 at a concrete 4-byte input. -/
theorem claim_C3_witness :
    ∃ mid, convertLoop [0, 0, 0, 1] = ConvResult.ok mid ∧
      convertLoop mid = ConvResult.ok [0, 0, 0, 1] :=
  claim_C3_round_trip [0, 0, 0, 1] (by decide) (by decide)

/-- Claim C4: on an input whose length is not a multiple of 4 the Converter
converts the complete words, then the short trailing chunk makes the decode
raise; the fault is not caught, the process exits nonzero (code 1), and the
output file holds exactly the words converted so far. -/
theorem claim_C4_converter_fail_fast (argv : List String) (bs : List Nat)
    (hargv : argv.length = 3) (h256 : ∀ b ∈ bs, b < 256) (hlen : bs.length % 4 ≠ 0) :
    ∃ out, converterRun argv bs = { exitCode := 1, stdout := [], outputFile := some out } ∧
      out.length = 4 * (bs.length / 4) ∧ leWords out = beWords bs := by
  refine ⟨rev4groups bs, ?_, rev4groups_length bs, leWords_rev4groups bs⟩
  have hc := convertLoop_spec bs h256
  rw [if_neg hlen] at hc
  simp [converterRun, hargv, hc]

/-- Witness for C4 at a concrete 6-byte input. -/
theorem claim_C4_witness :
    ∃ out, converterRun ["convert", "in.bin", "out.bin"] [0, 0, 0, 1, 9, 9] =
        { exitCode := 1, stdout := [], outputFile := some out } ∧
      out.length = 4 * (([0, 0, 0, 1, 9, 9] : List Nat).length / 4) ∧
      leWords out = beWords [0, 0, 0, 1, 9, 9] :=
  claim_C4_converter_fail_fast ["convert", "in.bin", "out.bin"] [0, 0, 0, 1, 9, 9]
    (by decide) (by decide) (by decide)

/-- Claim C5: when the readable bytes run out before the loop count computed
from the stat size (a short read mid-loop), the error is caught, the loop
stops with no value printed for the failed read, and the run exits 0 having
printed exactly the words decoded before the failure. -/
theorem claim_C5_dumper_recovered_fault (argv : List String) (statSize : Nat)
    (input : List Nat) (hargs : 2 ≤ argv.length)
    (hshort : input.length < 4 * (statSize / 4)) :
    (dumperRun argv statSize input).exitCode = 0 ∧
    dumpLoop (statSize / 4) input = leWords input ∧
    (dumpLoop (statSize / 4) input).length = input.length / 4 ∧
    input.length / 4 < statSize / 4 := by
  have hdl : dumpLoop (statSize / 4) input = leWords input := by
    rw [dumpLoop_eq_leWords, List.take_of_length_le (by omega)]
  refine ⟨?_, hdl, ?_, by omega⟩
  · simp [dumperRun, Nat.not_lt.mpr hargs]
  · rw [hdl, leWords_length]

/-- Witness for C5: stat size 6 but only 3 readable bytes. -/
theorem claim_C5_witness :
    (dumperRun ["dump", "file.bin"] 6 [1, 0, 0]).exitCode = 0 ∧
    dumpLoop (6 / 4) [1, 0, 0] = leWords [1, 0, 0] ∧
    (dumpLoop (6 / 4) [1, 0, 0]).length = ([1, 0, 0] : List Nat).length / 4 ∧
    ([1, 0, 0] : List Nat).length / 4 < 6 / 4 :=
  claim_C5_dumper_recovered_fault ["dump", "file.bin"] 6 [1, 0, 0]
    (by decide) (by decide)

/-- Counterexample to C6 as stated: the usage message the Dumper prints is
not two lines. -/
theorem claim_C6_counterexample : (dumperUsageLines "read_binary.py").length ≠ 2 := by
  decide

/-- Claim C6 (amended): wrong argument counts make either tool exit 1 with
its usage message on stdout before opening or touching any file; the usage
message of the Dumper is three lines — the usage line, a blank line, and the
note on the default separator. -/
theorem claim_C6_usage_enforcement (argvC argvD : List String) (bsC : List Nat)
    (statSize : Nat) (bsD : List Nat)
    (hC : argvC.length ≠ 3) (hD : argvD.length < 2) :
    converterRun argvC bsC =
      { exitCode := 1, stdout := [converterUsageLine (argvC.getD 0 "")], outputFile := none } ∧
    converterEvents argvC = [] ∧
    dumperRun argvD statSize bsD =
      { exitCode := 1, stdout := joinLines (dumperUsageLines (argvD.getD 0 "")) } ∧
    dumperEvents argvD = [] ∧
    (dumperUsageLines (argvD.getD 0 "")).length = 3 := by
  refine ⟨?_, ?_, ?_, ?_, rfl⟩
  · simp [converterRun, hC]
  · simp [converterEvents, hC]
  · simp [dumperRun, hD]
  · simp [dumperEvents, hD]

/-- Witness for the amended C6: both tools invoked with no arguments
beyond the program name. -/
theorem claim_C6_witness :
    converterRun ["convert_to_little.py"] [7] =
      { exitCode := 1,
        stdout := [converterUsageLine (["convert_to_little.py"].getD 0 "")],
        outputFile := none } ∧
    converterEvents ["convert_to_little.py"] = [] ∧
    dumperRun ["read_binary.py"] 4 [7] =
      { exitCode := 1, stdout := joinLines (dumperUsageLines (["read_binary.py"].getD 0 "")) } ∧
    dumperEvents ["read_binary.py"] = [] ∧
    (dumperUsageLines (["read_binary.py"].getD 0 "")).length = 3 :=
  claim_C6_usage_enforcement ["convert_to_little.py"] ["read_binary.py"] [7] 4 [7]
    (by decide) (by decide)

/-- Claim C7: with a third argument the Dumper prints each decoded decimal
value immediately followed by that separator verbatim and nothing else; on
the 8-byte file 01 00 00 00 02 00 00 00 with separator "," the whole stdout
is exactly "1,2," with no trailing newline. -/
theorem claim_C7_separator_passthrough (argv : List String) (statSize : Nat)
    (bs : List Nat) (hsep : 2 < argv.length) :
    (dumperRun argv statSize bs).stdout =
      String.join ((dumpLoop (statSize / 4) bs).map (fun w => toString w ++ argv.getD 2 "\n")) ∧
    dumperRun ["dump", "file.bin", ","] 8 [1, 0, 0, 0, 2, 0, 0, 0] =
      { exitCode := 0, stdout := "1,2," } := by
  constructor
  · simp only [dumperRun, if_neg (by omega : ¬ argv.length < 2)]
    rfl
  · decide

/-- Witness for C7 at the concrete separator invocation. -/
theorem claim_C7_witness :
    (dumperRun ["dump", "file.bin", ","] 8 [1, 0, 0, 0, 2, 0, 0, 0]).stdout =
      String.join ((dumpLoop (8 / 4) [1, 0, 0, 0, 2, 0, 0, 0]).map
        (fun w => toString w ++ (["dump", "file.bin", ","].getD 2 "\n"))) ∧
    dumperRun ["dump", "file.bin", ","] 8 [1, 0, 0, 0, 2, 0, 0, 0] =
      { exitCode := 0, stdout := "1,2," } :=
  claim_C7_separator_passthrough ["dump", "file.bin", ","] 8 [1, 0, 0, 0, 2, 0, 0, 0]
    (by decide)

/-- Counterexample to C8 as stated: a normal run of the Dumper opens its
input file and the event list contains no close for it. -/
theorem claim_C8_counterexample :
    allClosed (dumperEvents ["read_binary.py", "input.bin"]) = false := by
  decide

/-- Claim C8 (amended): the Converter closes every handle it opens on every
run, including the malformed-input abort, via its finally block; the Dumper
never emits a close for the handle it opens — the handle is reclaimed only
at process exit, not by the program. -/
theorem claim_C8_resource_release (argvC argvD : List String) :
    allClosed (converterEvents argvC) = true ∧
    FileEv.fclose 0 ∉ dumperEvents argvD := by
  constructor
  · by_cases h : argvC.length = 3
    · have he : converterEvents argvC =
          [FileEv.fopen 0, FileEv.fopen 1, FileEv.fclose 0, FileEv.fclose 1] := by
        simp [converterEvents, h]
      rw [he]
      decide
    · have he : converterEvents argvC = [] := by
        simp [converterEvents, h]
      rw [he]
      decide
  · by_cases h : argvD.length < 2
    · simp [dumperEvents, h]
    · simp [dumperEvents, h]

/-- Claim C9: bytes after the last complete word never influence the Dumper:
two files with the same word count and identical complete-word prefixes give
identical runs for any common argument vector. -/
theorem claim_C9_trailing_bytes (argv : List String) (bs1 bs2 : List Nat)
    (hq : bs1.length / 4 = bs2.length / 4)
    (hpre : List.take (4 * (bs1.length / 4)) bs1 = List.take (4 * (bs2.length / 4)) bs2) :
    dumperRun argv bs1.length bs1 = dumperRun argv bs2.length bs2 := by
  unfold dumperRun
  by_cases h : argv.length < 2
  · rw [if_pos h, if_pos h]
  · rw [if_neg h, if_neg h]
    have hw : dumpLoop (bs1.length / 4) bs1 = dumpLoop (bs2.length / 4) bs2 := by
      rw [dumpLoop_eq_leWords, dumpLoop_eq_leWords, hpre]
    rw [hw]

/-- Witness for C9: a 5-byte and a 6-byte file sharing their first word. -/
theorem claim_C9_witness :
    dumperRun ["dump", "file.bin"] ([1, 0, 0, 0, 9] : List Nat).length [1, 0, 0, 0, 9] =
      dumperRun ["dump", "file.bin"] ([1, 0, 0, 0, 7, 7] : List Nat).length [1, 0, 0, 0, 7, 7] :=
  claim_C9_trailing_bytes ["dump", "file.bin"] [1, 0, 0, 0, 9] [1, 0, 0, 0, 7, 7]
    (by decide) (by decide)

/-- Claim C10: every value the Dumper prints is an unsigned 32-bit integer,
and the printed values are exactly the little-endian decodings of the
complete words of the prefix the loop reads. -/
theorem claim_C10_printed_value_range (n : Nat) (bs : List Nat)
    (h256 : ∀ b ∈ bs, b < 256) :
    (∀ v ∈ dumpLoop n bs, v < 4294967296) ∧
    dumpLoop n bs = leWords (List.take (4 * n) bs) := by
  refine ⟨?_, dumpLoop_eq_leWords n bs⟩
  intro v hv
  rw [dumpLoop_eq_leWords] at hv
  exact leWords_lt _ (fun b hb => h256 b (List.take_subset _ _ hb)) v hv

/-- Witness for C10 at a concrete all-ones first word. -/
theorem claim_C10_witness :
    (∀ v ∈ dumpLoop 2 [255, 255, 255, 255, 1, 0, 0, 0], v < 4294967296) ∧
    dumpLoop 2 [255, 255, 255, 255, 1, 0, 0, 0] =
      leWords (List.take (4 * 2) [255, 255, 255, 255, 1, 0, 0, 0]) :=
  claim_C10_printed_value_range 2 [255, 255, 255, 255, 1, 0, 0, 0] (by decide)
